import Mathlib

/-!
Verification of the Turing Pi 2 BMC API SDK (Go package `bmcapi`) against its
natural-language specification.

The Go source is shallowly embedded:

* JSON documents are modelled by the inductive `JValue`; a raw HTTP body is a
  `Body`, which is either `malformed` (bytes that are not well-formed JSON) or
  a well-formed JSON value.
* Go's `encoding/json.Unmarshal` into the concrete target types used by the
  package (`bmcResultAPIResponse`, `bmcObjectAPIResponse`, `bmcApiAuth`,
  `bmcOther` and the inline `bmcOtherResponse`) is embedded by one explicit
  decoder per type.  The embedding reproduces the semantics of `Unmarshal`
  relevant to these types: a document (or struct field / slice element) that
  is `null` leaves strings unchanged and zeroes slices and maps; unknown
  object keys are skipped regardless of the shape of their value; object keys
  are matched against struct tags case-insensitively (ASCII fold - all tags in
  the source are ASCII lowercase, for which Go's fold is exactly ASCII
  case-insensitive comparison); a type mismatch on a relevant value is an
  error.  Go merges a duplicated struct field into the previously decoded
  value; the embedding re-decodes it from a fresh zero value, which agrees
  with Go except on documents that repeat the same envelope key with partial
  objects - no theorem below depends on such documents.
* The HTTP layer is embedded structurally: a `Request` records method, URL,
  the Content-Type/Authorization headers the code sets (basic credentials are
  kept as the pair passed to `SetBasicAuth` rather than their base64 image)
  and the optional request body; the caller-supplied `http.Client` is a
  function from `Request` to `DoResult`.  Each operation returns, next to its
  result, the list of requests it handed to the client, so that "no network
  call is made" is the statement that this trace is empty.  `http.NewRequest`
  can only fail on a malformed URL; that failure path is not modelled (no
  claim depends on it), so request construction is total here.  Reading the
  response body is modelled as always succeeding; the read-error path of
  `io.ReadAll` is likewise not needed by any claim.
* A Go `map[string]string` is an association list with replacement on insert
  (`mapSet`) and zero-value lookup (`lookupD`), matching Go map indexing.
* A Go function that can panic (`resultAPIParse` indexes `Response[0]`
  unconditionally) returns a `GoResult`, whose `crash` constructor marks the
  run-time panic; functions that only return `error` use `PResult`.
-/

/-- JSON values.  Numbers carry an integer payload; none of the decoded
target types contains a numeric field, so the payload only matters for
distinguishing a number from the other shapes. -/
inductive JValue : Type where
  | jnull : JValue
  | jbool (b : Bool) : JValue
  | jnum (n : Int) : JValue
  | jstr (s : String) : JValue
  | jarr (xs : List JValue) : JValue
  | jobj (fields : List (String × JValue)) : JValue

/-- Raw bytes of an HTTP body, abstracted to whether they are well-formed
JSON and, if so, which document they denote. -/
inductive Body : Type where
  | malformed : Body
  | wellFormed (v : JValue) : Body

/-- ASCII lower-casing of one character, as used by Go's field-name fold for
the ASCII-only struct tags of this package. -/
def foldChar (c : Char) : Char :=
  if 'A' ≤ c ∧ c ≤ 'Z' then Char.ofNat (c.toNat + 32) else c

/-- Case-insensitive (ASCII fold) equality of an object key and a struct tag,
embedding Go's `encoding/json` field matching for ASCII lowercase tags: the
exact match and the fold match of `Unmarshal` coincide with this test because
every tag in the source is ASCII lowercase. -/
def eqFold (a b : String) : Bool :=
  a.data.map foldChar == b.data.map foldChar

/-- Association-list image of a Go `map[string]string`: insert with
replacement, mirroring `m[k] = v`. -/
def mapSet (m : List (String × String)) (k v : String) : List (String × String) :=
  match m with
  | [] => [(k, v)]
  | (k', v') :: rest => if k' = k then (k, v) :: rest else (k', v') :: mapSet rest k v

/-- Go map indexing `m[k]` for a `map[string]string`: the stored value, or
the zero value `""` when the key is absent. -/
def lookupD (m : List (String × String)) (k : String) : String :=
  match m.find? (fun e => e.1 == k) with
  | some e => e.2
  | none => ""

/-- Decoding a list of JSON values element by element with a fixed element
decoder, as `Unmarshal` does for the elements of a slice. -/
def decElems (dec : JValue → Option α) : List JValue → Option (List α)
  | [] => some []
  | x :: xs =>
    match dec x, decElems dec xs with
    | some a, some as => some (a :: as)
    | _, _ => none

/-- Unmarshal of one object-field list into the anonymous Go struct
`struct{ Result string }` (tag `result`), starting from the current field
value `acc` (the zero value `""` for a fresh element). -/
def foldResultElem : List (String × JValue) → String → Option String
  | [], acc => some acc
  | (k, v) :: rest, acc =>
    if eqFold k "result" then
      match v with
      | JValue.jstr s => foldResultElem rest s
      | JValue.jnull => foldResultElem rest acc
      | _ => none
    else foldResultElem rest acc

/-- Unmarshal of one JSON value into `struct{ Result string }`: an object is
decoded field by field, `null` leaves the zero struct, everything else is a
type error. -/
def decodeResultElem : JValue → Option String
  | JValue.jobj fs => foldResultElem fs ""
  | JValue.jnull => some ""
  | _ => none

/-- Unmarshal of the field list of the top-level object into
`bmcResultAPIResponse` (field `Response []struct{ Result string }`, tag
`response`): a matching key must hold an array (decoded elementwise) or
`null` (which zeroes the slice); other keys are skipped. -/
def foldResultResp : List (String × JValue) → List String → Option (List String)
  | [], acc => some acc
  | (k, v) :: rest, acc =>
    if eqFold k "response" then
      match v with
      | JValue.jarr xs =>
        match decElems decodeResultElem xs with
        | some rs => foldResultResp rest rs
        | none => none
      | JValue.jnull => foldResultResp rest []
      | _ => none
    else foldResultResp rest acc

/-- Unmarshal of a well-formed JSON document into `bmcResultAPIResponse`,
represented by its list of `Result` strings.  A `null` document is accepted
and leaves the zero value (a `nil` slice). -/
def decodeResultResp : JValue → Option (List String)
  | JValue.jobj fs => foldResultResp fs []
  | JValue.jnull => some []
  | _ => none

/-- Unmarshal of one object-field list into a fresh Go `map[string]string`:
every key is stored; a string value is taken verbatim, `null` stores the zero
value `""`, anything else is a type error. -/
def foldMapFields : List (String × JValue) → List (String × String) → Option (List (String × String))
  | [], m => some m
  | (k, v) :: rest, m =>
    match v with
    | JValue.jstr s => foldMapFields rest (mapSet m k s)
    | JValue.jnull => foldMapFields rest (mapSet m k "")
    | _ => none

/-- Unmarshal of one JSON value into a `map[string]string`: an object is
decoded key by key, `null` yields the nil (empty) map, everything else is a
type error. -/
def decodeStrMap : JValue → Option (List (String × String))
  | JValue.jobj fs => foldMapFields fs []
  | JValue.jnull => some []
  | _ => none

/-- Unmarshal of one object-field list into the anonymous Go struct
`struct{ Result []map[string]string }` (tag `result`). -/
def foldObjElem : List (String × JValue) → List (List (String × String)) →
    Option (List (List (String × String)))
  | [], acc => some acc
  | (k, v) :: rest, acc =>
    if eqFold k "result" then
      match v with
      | JValue.jarr xs =>
        match decElems decodeStrMap xs with
        | some ms => foldObjElem rest ms
        | none => none
      | JValue.jnull => foldObjElem rest []
      | _ => none
    else foldObjElem rest acc

/-- Unmarshal of one JSON value into `struct{ Result []map[string]string }`. -/
def decodeObjElem : JValue → Option (List (List (String × String)))
  | JValue.jobj fs => foldObjElem fs []
  | JValue.jnull => some []
  | _ => none

/-- Unmarshal of the field list of the top-level object into
`bmcObjectAPIResponse` (tag `response`). -/
def foldObjectResp : List (String × JValue) → List (List (List (String × String))) →
    Option (List (List (List (String × String))))
  | [], acc => some acc
  | (k, v) :: rest, acc =>
    if eqFold k "response" then
      match v with
      | JValue.jarr xs =>
        match decElems decodeObjElem xs with
        | some rs => foldObjectResp rest rs
        | none => none
      | JValue.jnull => foldObjectResp rest []
      | _ => none
    else foldObjectResp rest acc

/-- Unmarshal of a well-formed JSON document into `bmcObjectAPIResponse`,
represented as the list of per-element `Result` lists of maps. -/
def decodeObjectResp : JValue → Option (List (List (List (String × String))))
  | JValue.jobj fs => foldObjectResp fs []
  | JValue.jnull => some []
  | _ => none

/-- Error values produced by the package, one constructor per distinct
`errors.New` / `fmt.Errorf` site; `wrapped ctx e` is `fmt.Errorf("ctx: %w", e)`. -/
inductive ApiError : Type where
  | invalidAuthType (t : String) : ApiError
  | authNetwork : ApiError
  | authStatus (code : Nat) : ApiError
  | authJsonParse : ApiError
  | authMissingToken : ApiError
  | network : ApiError
  | httpStatus (code : Nat) : ApiError
  | jsonParse : ApiError
  | emptyResult : ApiError
  | noData : ApiError
  | nodeRange : ApiError
  | powerStateRange : ApiError
  | wrapped (ctx : String) (e : ApiError) : ApiError
deriving DecidableEq

/-- Outcome of a Go function returning `(T, error)` that cannot panic. -/
inductive PResult (α : Type) : Type where
  | ok (a : α) : PResult α
  | error (e : ApiError) : PResult α
deriving DecidableEq

/-- Outcome of a Go function returning `(T, error)` that can also panic at
run time: `crash` marks the panic. -/
inductive GoResult (α : Type) : Type where
  | ok (a : α) : GoResult α
  | error (e : ApiError) : GoResult α
  | crash : GoResult α
deriving DecidableEq

/-- Embedding of `resultAPIParse` (bmcapi.go:305-320): unmarshal the body
into `bmcResultAPIResponse`, then read `parsed.Response[0].Result` with no
length check - on a document whose decoded `Response` slice is empty this is
the Go panic `index out of range`, modelled by `crash` - and reject the empty
string. -/
def resultAPIParse (body : Body) : GoResult String :=
  match body with
  | Body.malformed => GoResult.error ApiError.jsonParse
  | Body.wellFormed v =>
    match decodeResultResp v with
    | none => GoResult.error ApiError.jsonParse
    | some [] => GoResult.crash
    | some (r :: _) => if r = "" then GoResult.error ApiError.emptyResult else GoResult.ok r

/-- Embedding of `objectAPIParse` (bmcapi.go:324-336): unmarshal the body
into `bmcObjectAPIResponse`, fail with `noData` when the outer `Response`
slice or the inner `Result` slice is empty, and otherwise return
`Response[0].Result[0]`. -/
def objectAPIParse (body : Body) : PResult (List (String × String)) :=
  match body with
  | Body.malformed => PResult.error ApiError.jsonParse
  | Body.wellFormed v =>
    match decodeObjectResp v with
    | none => PResult.error ApiError.jsonParse
    | some [] => PResult.error ApiError.noData
    | some ([] :: _) => PResult.error ApiError.noData
    | some ((m :: _) :: _) => PResult.ok m

/-- Default base URL `tpiDefaultURL` (bmcapi.go:15). -/
def tpiDefaultURL : String := "https://turingpi.local"

/-- Embedding of the `bmcApiAuth` struct (bmcapi.go:18-24); `accessToken`
carries the JSON tag `id`. -/
structure BmcApiAuth : Type where
  accessToken : String
  name : String
  description : String
  username : String
  password : String
deriving DecidableEq

/-- Zero value of `bmcApiAuth`. -/
def BmcApiAuth.zero : BmcApiAuth :=
  { accessToken := "", name := "", description := "", username := "", password := "" }

/-- Struct tags of `bmcApiAuth`, in field order. -/
def authTags : List String := ["id", "name", "description", "username", "password"]

/-- Writing one decoded string into the `bmcApiAuth` field with the given tag. -/
def setAuthField (a : BmcApiAuth) (tag s : String) : BmcApiAuth :=
  if tag = "id" then { a with accessToken := s }
  else if tag = "name" then { a with name := s }
  else if tag = "description" then { a with description := s }
  else if tag = "username" then { a with username := s }
  else if tag = "password" then { a with password := s }
  else a

/-- Unmarshal of one object-field list into `bmcApiAuth`: a key matching one
of the five tags must hold a string (stored) or `null` (field unchanged);
unknown keys are skipped. -/
def foldAuthFields : List (String × JValue) → BmcApiAuth → Option BmcApiAuth
  | [], a => some a
  | (k, v) :: rest, a =>
    match authTags.find? (fun t => eqFold k t) with
    | some t =>
      match v with
      | JValue.jstr s => foldAuthFields rest (setAuthField a t s)
      | JValue.jnull => foldAuthFields rest a
      | _ => none
    | none => foldAuthFields rest a

/-- Unmarshal of a well-formed JSON document into `bmcApiAuth`
(bmcapi.go:103). -/
def decodeAuth : JValue → Option BmcApiAuth
  | JValue.jobj fs => foldAuthFields fs BmcApiAuth.zero
  | JValue.jnull => some BmcApiAuth.zero
  | _ => none

/-- Structural image of an `http.Request` as the package builds one: method,
full URL, whether `Content-Type: application/json` was set, the bearer token
of an `Authorization: Bearer` header, the credential pair of
`SetBasicAuth`, and the optional request body. -/
structure Request : Type where
  method : String
  url : String
  contentTypeJson : Bool
  bearer : Option String
  basicAuth : Option (String × String)
  reqBody : Option String
deriving DecidableEq

/-- Response returned by the caller-supplied transport. -/
structure HttpResponse : Type where
  status : Nat
  respBody : Body

/-- Outcome of `client.Do`: a network-level failure or a response. -/
inductive DoResult : Type where
  | fail : DoResult
  | resp (r : HttpResponse) : DoResult

/-- Embedding of the `BMCAPI` struct (bmcapi.go:27-32); the `http.Client` is
the function the operations hand each request to. -/
structure BMCAPI : Type where
  auth : BmcApiAuth
  BaseURL : String
  Client : Request → DoResult
  AuthType : String

/-- Base-URL substitution at the top of `NewBMCAPI` (bmcapi.go:66-68). -/
def resolveURL (baseURL : String) : String :=
  if baseURL = "" then tpiDefaultURL else baseURL

/-- Bearer handshake request body (bmcapi.go:85): direct string
concatenation of the username and password into a JSON-shaped text. -/
def authBody (username password : String) : String :=
  "\x7b\"username\":\"" ++ username ++ "\",\"password\":\"" ++ password ++ "\"\x7d"

/-- The `GET <base>/api/bmc/authenticate` request of the bearer handshake
(bmcapi.go:78-85), with JSON content type and the concatenated body. -/
def mkBearerAuthReq (base username password : String) : Request :=
  { method := "GET", url := base ++ "/api/bmc/authenticate", contentTypeJson := true,
    bearer := none, basicAuth := none, reqBody := some (authBody username password) }

/-- The `GET <base>/api/bmc?opt=get&type=info` credential-check request of
basic mode (bmcapi.go:112-116). -/
def mkBasicAuthReq (base username password : String) : Request :=
  { method := "GET", url := base ++ "/api/bmc?opt=get&type=info", contentTypeJson := false,
    bearer := none, basicAuth := some (username, password), reqBody := none }

/-- Embedding of `NewBMCAPI` (bmcapi.go:63-140).  The second component is
the list of requests handed to the client, so an empty list states that no
network call was made. -/
def NewBMCAPI (baseURL authType username password : String) (client : Request → DoResult) :
    GoResult BMCAPI × List Request :=
  let base := resolveURL baseURL
  if authType ≠ "basic" ∧ authType ≠ "bearer" then
    (GoResult.error (ApiError.invalidAuthType authType), [])
  else if authType = "bearer" then
    let req := mkBearerAuthReq base username password
    match client req with
    | DoResult.fail => (GoResult.error ApiError.authNetwork, [req])
    | DoResult.resp r =>
      if r.status ≠ 200 then (GoResult.error (ApiError.authStatus r.status), [req])
      else
        match r.respBody with
        | Body.malformed => (GoResult.error ApiError.authJsonParse, [req])
        | Body.wellFormed v =>
          match decodeAuth v with
          | none => (GoResult.error ApiError.authJsonParse, [req])
          | some a =>
            if a.accessToken = "" then (GoResult.error ApiError.authMissingToken, [req])
            else (GoResult.ok { auth := a, BaseURL := base, Client := client, AuthType := authType }, [req])
  else
    let req := mkBasicAuthReq base username password
    match client req with
    | DoResult.fail => (GoResult.error ApiError.authNetwork, [req])
    | DoResult.resp r =>
      if r.status ≠ 200 then (GoResult.error (ApiError.authStatus r.status), [req])
      else
        (GoResult.ok
          { auth := { BmcApiAuth.zero with username := username, password := password },
            BaseURL := base, Client := client, AuthType := authType }, [req])

/-- Request built by `bmcAPICall` (bmcapi.go:270-281) and, identically, by
the inline `Other` (bmcapi.go:462-473): `GET` on the base URL plus the
endpoint, with headers injected according to the auth mode. -/
def mkBmcRequest (b : BMCAPI) (endpoint : String) : Request :=
  { method := "GET", url := b.BaseURL ++ endpoint,
    contentTypeJson := b.AuthType = "bearer",
    bearer := if b.AuthType = "bearer" then some b.auth.accessToken else none,
    basicAuth := if b.AuthType = "basic" then some (b.auth.username, b.auth.password) else none,
    reqBody := none }

/-- Embedding of `bmcAPICall` (bmcapi.go:267-301): one round trip, non-200
status is an error, otherwise the body bytes are returned. -/
def bmcAPICall (b : BMCAPI) (endpoint : String) : PResult Body × List Request :=
  let req := mkBmcRequest b endpoint
  match b.Client req with
  | DoResult.fail => (PResult.error ApiError.network, [req])
  | DoResult.resp r =>
    if r.status ≠ 200 then (PResult.error (ApiError.httpStatus r.status), [req])
    else (PResult.ok r.respBody, [req])

/-- Composition shared by the scalar operations: call the endpoint, wrap a
call error with the operation's context string, and otherwise hand the body
to `resultAPIParse` (whose own error is returned unwrapped). -/
def scalarOp (b : BMCAPI) (ctx endpoint : String) : GoResult String × List Request :=
  match bmcAPICall b endpoint with
  | (PResult.error e, tr) => (GoResult.error (ApiError.wrapped ctx e), tr)
  | (PResult.ok body, tr) => (resultAPIParse body, tr)

/-- Embedding of `USBBoot` (bmcapi.go:169-183): node range check before any
call, then the scalar pipeline on `opt=set&type=usb_boot`. -/
def USBBoot (b : BMCAPI) (node : Int) : GoResult String × List Request :=
  if node < 0 ∨ node > 3 then (GoResult.error ApiError.nodeRange, [])
  else scalarOp b "error during USB Boot API call" ("/api/bmc?opt=set&type=usb_boot&node=" ++ toString node)

/-- Embedding of `ClearUSBBoot` (bmcapi.go:186-200). -/
def ClearUSBBoot (b : BMCAPI) (node : Int) : GoResult String × List Request :=
  if node < 0 ∨ node > 3 then (GoResult.error ApiError.nodeRange, [])
  else scalarOp b "error during Clear USB Boot API call" ("/api/bmc?opt=set&type=clear_usb_boot&node=" ++ toString node)

/-- Embedding of `ResetNetwork` (bmcapi.go:203-210). -/
def ResetNetwork (b : BMCAPI) : GoResult String × List Request :=
  scalarOp b "error during Reset Network Switch call" "/api/bmc?opt=set&type=network"

/-- Embedding of `NodetoMSD` (bmcapi.go:213-226). -/
def NodetoMSD (b : BMCAPI) (node : Int) : GoResult String × List Request :=
  if node < 0 ∨ node > 3 then (GoResult.error ApiError.nodeRange, [])
  else scalarOp b "error during Node to MSD call" ("/api/bmc?opt=set&type=node_to_msd&node=" ++ toString node)

/-- Embedding of `SetPower` (bmcapi.go:230-246): node and power-state range
checks before any call, then the scalar pipeline on the endpoint that
concatenates the literal `node` directly with the node number. -/
def SetPower (b : BMCAPI) (node powerState : Int) : GoResult String × List Request :=
  if node < 0 ∨ node > 3 then (GoResult.error ApiError.nodeRange, [])
  else if powerState < 0 ∨ powerState > 1 then (GoResult.error ApiError.powerStateRange, [])
  else scalarOp b "error during Set Power call"
    ("/api/bmc?opt=power&type=set&node" ++ toString node ++ "=" ++ toString powerState)

/-- Embedding of `GetPower` (bmcapi.go:249-264). -/
def GetPower (b : BMCAPI) : PResult (List (String × String)) × List Request :=
  match bmcAPICall b "/api/bmc?opt=get&type=power" with
  | (PResult.error e, tr) => (PResult.error (ApiError.wrapped "error during Get Power call" e), tr)
  | (PResult.ok body, tr) =>
    match objectAPIParse body with
    | PResult.error e => (PResult.error (ApiError.wrapped "error parsing response" e), tr)
    | PResult.ok m => (PResult.ok m, tr)

/-- Embedding of the `bmcOther` record (helper version bmcapi.go:50-58,
inline version bmcapi.go:370-378); field names follow the JSON tags of the
inline version. -/
structure BmcOther : Type where
  api : String
  build_version : String
  buildroot : String
  buildtime : String
  ip : String
  mac : String
  version : String
deriving DecidableEq

/-- Zero value of `bmcOther`. -/
def BmcOther.zero : BmcOther :=
  { api := "", build_version := "", buildroot := "", buildtime := "", ip := "", mac := "", version := "" }

/-- Struct tags of `bmcOther`, in field order. -/
def otherTags : List String :=
  ["api", "build_version", "buildroot", "buildtime", "ip", "mac", "version"]

/-- Writing one decoded string into the `bmcOther` field with the given tag. -/
def setOtherField (r : BmcOther) (tag s : String) : BmcOther :=
  if tag = "api" then { r with api := s }
  else if tag = "build_version" then { r with build_version := s }
  else if tag = "buildroot" then { r with buildroot := s }
  else if tag = "buildtime" then { r with buildtime := s }
  else if tag = "ip" then { r with ip := s }
  else if tag = "mac" then { r with mac := s }
  else if tag = "version" then { r with version := s }
  else r

/-- Reading the `bmcOther` field with the given tag (zero for a non-tag). -/
def getOtherField (r : BmcOther) (tag : String) : String :=
  if tag = "api" then r.api
  else if tag = "build_version" then r.build_version
  else if tag = "buildroot" then r.buildroot
  else if tag = "buildtime" then r.buildtime
  else if tag = "ip" then r.ip
  else if tag = "mac" then r.mac
  else if tag = "version" then r.version
  else ""

/-- Unmarshal of one object-field list into `bmcOther`: a key matching one
of the seven tags (case-insensitively) must hold a string (stored) or `null`
(field unchanged); unknown keys are skipped whatever their value. -/
def foldOtherFields : List (String × JValue) → BmcOther → Option BmcOther
  | [], r => some r
  | (k, v) :: rest, r =>
    match otherTags.find? (fun t => eqFold k t) with
    | some t =>
      match v with
      | JValue.jstr s => foldOtherFields rest (setOtherField r t s)
      | JValue.jnull => foldOtherFields rest r
      | _ => none
    | none => foldOtherFields rest r

/-- Unmarshal of one JSON value into `bmcOther`. -/
def decodeOtherV : JValue → Option BmcOther
  | JValue.jobj fs => foldOtherFields fs BmcOther.zero
  | JValue.jnull => some BmcOther.zero
  | _ => none

/-- Unmarshal of one object-field list into the anonymous struct
`struct{ Result []bmcOther }` (tag `result`) of the inline `Other`. -/
def foldOtherElem : List (String × JValue) → List BmcOther → Option (List BmcOther)
  | [], acc => some acc
  | (k, v) :: rest, acc =>
    if eqFold k "result" then
      match v with
      | JValue.jarr xs =>
        match decElems decodeOtherV xs with
        | some os => foldOtherElem rest os
        | none => none
      | JValue.jnull => foldOtherElem rest []
      | _ => none
    else foldOtherElem rest acc

/-- Unmarshal of one JSON value into `struct{ Result []bmcOther }`. -/
def decodeOtherElem : JValue → Option (List BmcOther)
  | JValue.jobj fs => foldOtherElem fs []
  | JValue.jnull => some []
  | _ => none

/-- Unmarshal of the field list of the top-level object into the inline
`bmcOtherResponse` (bmcapi.go:490-494). -/
def foldOtherResp : List (String × JValue) → List (List BmcOther) →
    Option (List (List BmcOther))
  | [], acc => some acc
  | (k, v) :: rest, acc =>
    if eqFold k "response" then
      match v with
      | JValue.jarr xs =>
        match decElems decodeOtherElem xs with
        | some rs => foldOtherResp rest rs
        | none => none
      | JValue.jnull => foldOtherResp rest []
      | _ => none
    else foldOtherResp rest acc

/-- Unmarshal of a well-formed JSON document into the inline
`bmcOtherResponse`. -/
def decodeOtherResp : JValue → Option (List (List BmcOther))
  | JValue.jobj fs => foldOtherResp fs []
  | JValue.jnull => some []
  | _ => none

/-- Record built by the helper-based `Other` (bmcapi.go:154-162): the seven
fields are copied out of the parsed map by exact key lookup, absent keys
yielding the Go zero value `""`. -/
def recFromMap (m : List (String × String)) : BmcOther :=
  { api := lookupD m "api", build_version := lookupD m "build_version",
    buildroot := lookupD m "buildroot", buildtime := lookupD m "buildtime",
    ip := lookupD m "ip", mac := lookupD m "mac", version := lookupD m "version" }

/-- Response-body processing of the helper-based `Other` (bmcapi.go:149-164):
`objectAPIParse` followed by the explicit copy of the seven keys. -/
def otherParseHelper (body : Body) : PResult BmcOther :=
  match objectAPIParse body with
  | PResult.error e => PResult.error (ApiError.wrapped "error parsing response" e)
  | PResult.ok m => PResult.ok (recFromMap m)

/-- Response-body processing of the inline `Other` (bmcapi.go:496-504):
direct unmarshal into `bmcOtherResponse`, the same emptiness checks as
`objectAPIParse`, then `Response[0].Result[0]`. -/
def otherParseInline (body : Body) : PResult BmcOther :=
  match body with
  | Body.malformed => PResult.error ApiError.jsonParse
  | Body.wellFormed v =>
    match decodeOtherResp v with
    | none => PResult.error ApiError.jsonParse
    | some [] => PResult.error ApiError.noData
    | some ([] :: _) => PResult.error ApiError.noData
    | some ((r :: _) :: _) => PResult.ok r

/-- Embedding of the helper-based `Other` (bmcapi.go:142-166). -/
def Other (b : BMCAPI) : PResult BmcOther × List Request :=
  match bmcAPICall b "/api/bmc?opt=get&type=other" with
  | (PResult.error e, tr) => (PResult.error (ApiError.wrapped "error during USB Boot API call" e), tr)
  | (PResult.ok body, tr) => (otherParseHelper body, tr)

/-- Embedding of the inline `Other` (bmcapi.go:460-506); it issues the same
request as `bmcAPICall` does for the same endpoint. -/
def OtherInline (b : BMCAPI) : PResult BmcOther × List Request :=
  let req := mkBmcRequest b "/api/bmc?opt=get&type=other"
  match b.Client req with
  | DoResult.fail => (PResult.error ApiError.network, [req])
  | DoResult.resp r =>
    if r.status ≠ 200 then (PResult.error (ApiError.httpStatus r.status), [req])
    else (otherParseInline r.respBody, [req])

/-- Hexadecimal digit test for a JSON `\uXXXX` escape. -/
def isHexDigit (c : Char) : Bool :=
  (('0' ≤ c ∧ c ≤ '9') ∨ ('a' ≤ c ∧ c ≤ 'f') ∨ ('A' ≤ c ∧ c ≤ 'F') : Prop)

/-- Numeric value of a hexadecimal digit. -/
def hexVal (c : Char) : Nat :=
  if '0' ≤ c ∧ c ≤ '9' then c.toNat - 48
  else if 'a' ≤ c ∧ c ≤ 'f' then c.toNat - 87
  else c.toNat - 55

/-- Decoded character of a single-character JSON escape sequence. -/
def escChar : Char → Option Char
  | '"' => some '"'
  | '\\' => some '\\'
  | '/' => some '/'
  | 'b' => some (Char.ofNat 8)
  | 'f' => some (Char.ofNat 12)
  | 'n' => some '\n'
  | 'r' => some (Char.ofNat 13)
  | 't' => some '\t'
  | _ => none

/-- Characters that a JSON string literal may contain unescaped: everything
from U+0020 up except the double quote and the backslash. -/
def goodJChar (c : Char) : Bool :=
  !(c = '"' : Bool) && !(c = '\\' : Bool) && !(c.toNat < 32 : Bool)

/-- A string whose characters can all stand unescaped in a JSON literal. -/
def goodLit (s : String) : Bool :=
  s.data.all goodJChar

/-- A string free of double quotes and backslashes (the character condition
named by the specification sentence under scrutiny, which ignores control
characters). -/
def noQuoteBackslash (s : String) : Bool :=
  s.data.all (fun c => !(c = '"' : Bool) && !(c = '\\' : Bool))

/-- Scanning the body of a JSON string literal after its opening quote:
consumes up to and including an unescaped closing quote, decoding escapes on
the way, and rejects unescaped control characters.  Returns the decoded
content and the unconsumed rest. -/
def scanJString : List Char → Option (List Char × List Char)
  | [] => none
  | c :: rest =>
    if c = '"' then some ([], rest)
    else if c = '\\' then
      match rest with
      | [] => none
      | e :: rest1 =>
        if e = 'u' then
          match rest1 with
          | h1 :: h2 :: h3 :: h4 :: rest2 =>
            if isHexDigit h1 && isHexDigit h2 && isHexDigit h3 && isHexDigit h4 then
              match scanJString rest2 with
              | some (cs, t) =>
                some (Char.ofNat ((((hexVal h1 * 16 + hexVal h2) * 16 + hexVal h3) * 16 + hexVal h4)) :: cs, t)
              | none => none
            else none
          | _ => none
        else
          match escChar e with
          | some d =>
            match scanJString rest1 with
            | some (cs, t) => some (d :: cs, t)
            | none => none
          | none => none
    else if c.toNat < 32 then none
    else
      match scanJString rest with
      | some (cs, t) => some (c :: cs, t)
      | none => none

/-- Consuming an exact literal prefix; returns the unconsumed rest. -/
def expectLit : List Char → List Char → Option (List Char)
  | [], input => some input
  | _ :: _, [] => none
  | l :: ls, c :: cs => if c = l then expectLit ls cs else none

/-- Opening part of the handshake body skeleton, up to and including the
quote that opens the username value. -/
def preChars : List Char := ("\x7b\"username\":\"").data

/-- Middle part of the skeleton between the quote closing the username value
and the quote opening the password value (both exclusive). -/
def midChars : List Char := (",\"password\":\"").data

/-- Parser for the exact textual shape the handshake body is built in -
an open brace, the literal key `username`, one JSON string literal, the
literal key `password`, a second JSON string literal, a closing brace, end of
input - with full JSON string-literal syntax (escapes included) inside the
two value positions.  A text of this shape is precisely a well-formed JSON
document denoting the two-field object with the returned username and
password, so `credsParse s = some (u, p)` formalises "`s` is a valid JSON
encoding of the credentials `u`, `p`" for the texts `NewBMCAPI` builds. -/
def credsParse (s : String) : Option (String × String) :=
  match expectLit preChars s.data with
  | none => none
  | some r0 =>
    match scanJString r0 with
    | none => none
    | some (ucs, r1) =>
      match expectLit midChars r1 with
      | none => none
      | some r2 =>
        match scanJString r2 with
        | none => none
        | some (pcs, r3) =>
          if r3 = ['\x7d'] then some (String.mk ucs, String.mk pcs) else none

/-- Key hygiene of one JSON object: pairwise-distinct keys, and any key that
matches one of the seven `bmcOther` tags case-insensitively is exactly that
tag. -/
def cleanObjKeys (fs : List (String × JValue)) : Prop :=
  (fs.map Prod.fst).Nodup ∧
    ∀ k ∈ fs.map Prod.fst, ∀ t ∈ otherTags, eqFold k t = true → k = t

/-- Key hygiene of the JSON value a result object was decoded from (only an
object carries keys). -/
def cleanFirstObj : JValue → Prop
  | JValue.jobj fs => cleanObjKeys fs
  | _ => True

/-- Scalar envelope with a single response element, as documented at
bmcapi.go:35: the JSON bytes of the text with the given result string. -/
def scalarEnv (s : String) : Body :=
  Body.wellFormed (JValue.jobj
    [("response", JValue.jarr [JValue.jobj [("result", JValue.jstr s)]])])

/-- Endpoint string built by `SetPower` (bmcapi.go:240). -/
def setPowerEndpoint (node powerState : Int) : String :=
  "/api/bmc?opt=power&type=set&node" ++ toString node ++ "=" ++ toString powerState

/-- Response body refuting the equivalence of the two `Other`
implementations: the first result object carries a number under a key that
is no `bmcOther` tag. -/
def c9Body : Body :=
  Body.wellFormed (JValue.jobj
    [("response", JValue.jarr [JValue.jobj
      [("result", JValue.jarr [JValue.jobj
        [("api", JValue.jstr "1.1"), ("x", JValue.jnum 5)]])]])])

/-- Relation between a decoded string map and a decoded `bmcOther` record
that come from the same JSON value. -/
def mapRecPair (m : List (String × String)) (o : BmcOther) : Prop :=
  ∃ x, decodeStrMap x = some m ∧ decodeOtherV x = some o

/-- Elementwise `mapRecPair` between the two decodes of one `result` list. -/
def resultListPair (e : List (List (String × String))) (o : List BmcOther) : Prop :=
  List.Forall₂ mapRecPair e o

/-- Transport stub answering every request with status 200 and a concrete
scalar envelope; used to instantiate universally quantified theorems. -/
def mockScalarClient : Request → DoResult :=
  fun _ => DoResult.resp { status := 200, respBody := scalarEnv "ok" }

/-- Transport stub answering every request with status 200 and a body that
is not well-formed JSON; enough for the construction paths that never read
the body. -/
def mockPlainClient : Request → DoResult :=
  fun _ => DoResult.resp { status := 200, respBody := Body.malformed }

/-- Concrete basic-mode client value for instantiating theorems about the
operations. -/
def mockBMC : BMCAPI :=
  { auth := BmcApiAuth.zero, BaseURL := "http://m", Client := mockScalarClient,
    AuthType := "basic" }

/-- C1.  The claim states that `resultAPIParse` returns a ParseError and
never crashes on well-formed JSON whose outer `response` list is empty.  The
code contradicts the specified invariant: on the bytes
`{"response":[]}` the decode succeeds with an empty `Response` slice and the
unguarded `parsed.Response[0]` (bmcapi.go:313) is a run-time index-out-of-
range panic, not a returned error.  This theorem evaluates the embedded
function at that failing input. -/
theorem c1_resultAPIParse_empty_response_panics :
    resultAPIParse (Body.wellFormed (JValue.jobj [("response", JValue.jarr [])])) =
      GoResult.crash := by
  decide

/-- C2.  On the scalar envelope `{"response":[{"result":"s"}]}`,
`resultAPIParse` returns `s` whenever `s` is non-empty and fails with the
empty-result error when `s` is the empty string; instantiating `s` with
`"ok"` and `""` gives exactly the two byte-level examples of the claim. -/
theorem c2_resultAPIParse_scalar :
    ∀ s : String,
      (s ≠ "" → resultAPIParse (scalarEnv s) = GoResult.ok s) ∧
      (s = "" → resultAPIParse (scalarEnv s) = GoResult.error ApiError.emptyResult) := by
  intro s
  have h : resultAPIParse (scalarEnv s) =
      if s = "" then GoResult.error ApiError.emptyResult else GoResult.ok s := rfl
  exact ⟨fun hs => by rw [h, if_neg hs], fun hs => by rw [h, if_pos hs]⟩

/-- Closed instance of `c2_resultAPIParse_scalar` at the two inputs of the
claim. -/
theorem c2_resultAPIParse_scalar_witness :
    resultAPIParse (scalarEnv "ok") = GoResult.ok "ok" ∧
      resultAPIParse (scalarEnv "") = GoResult.error ApiError.emptyResult :=
  ⟨(c2_resultAPIParse_scalar "ok").1 (by decide), (c2_resultAPIParse_scalar "").2 rfl⟩

/-- C3.  `objectAPIParse` fails with a parse error on malformed JSON and on
every well-formed document that does not decode into the object envelope;
it fails with the no-data error when the decoded outer `response` list or
the inner `result` list of its first element is empty (in particular on the
bytes `{"response":[{"result":[]}]}`); and when both lists are non-empty it
returns the first map of the first element. -/
theorem c3_objectAPIParse_contract :
    objectAPIParse Body.malformed = PResult.error ApiError.jsonParse ∧
    (∀ v, decodeObjectResp v = none →
      objectAPIParse (Body.wellFormed v) = PResult.error ApiError.jsonParse) ∧
    (∀ v, decodeObjectResp v = some [] →
      objectAPIParse (Body.wellFormed v) = PResult.error ApiError.noData) ∧
    (∀ v rest, decodeObjectResp v = some ([] :: rest) →
      objectAPIParse (Body.wellFormed v) = PResult.error ApiError.noData) ∧
    (∀ v m ms rest, decodeObjectResp v = some ((m :: ms) :: rest) →
      objectAPIParse (Body.wellFormed v) = PResult.ok m) ∧
    objectAPIParse (Body.wellFormed (JValue.jobj
        [("response", JValue.jarr [JValue.jobj [("result", JValue.jarr [])]])])) =
      PResult.error ApiError.noData := by
  refine ⟨rfl, ?_, ?_, ?_, ?_, by decide⟩
  · intro v h
    simp only [objectAPIParse, h]
  · intro v h
    simp only [objectAPIParse, h]
  · intro v rest h
    simp only [objectAPIParse, h]
  · intro v m ms rest h
    simp only [objectAPIParse, h]

/-- Closed instance of `c3_objectAPIParse_contract`: the success clause
applied to a concrete single-element object envelope. -/
theorem c3_objectAPIParse_contract_witness :
    objectAPIParse (Body.wellFormed (JValue.jobj
        [("response", JValue.jarr [JValue.jobj
          [("result", JValue.jarr [JValue.jobj [("api", JValue.jstr "1.1")]])]])])) =
      PResult.ok [("api", "1.1")] :=
  c3_objectAPIParse_contract.2.2.2.2.1 _ [("api", "1.1")] [] [] (by decide)

/-- C4.  For every node value outside `[0,3]`, `USBBoot`, `ClearUSBBoot`,
`NodetoMSD` and `SetPower` each return the node-range validation error with
an empty request trace, i.e. the stored client is never invoked; and for a
node in range but a power state outside `{0,1}`, `SetPower` returns the
power-state validation error, again with no request issued. -/
theorem c4_validation_before_network :
    ∀ (b : BMCAPI) (n s : Int),
      ((n < 0 ∨ 3 < n) →
        USBBoot b n = (GoResult.error ApiError.nodeRange, []) ∧
        ClearUSBBoot b n = (GoResult.error ApiError.nodeRange, []) ∧
        NodetoMSD b n = (GoResult.error ApiError.nodeRange, []) ∧
        SetPower b n s = (GoResult.error ApiError.nodeRange, [])) ∧
      (0 ≤ n → n ≤ 3 → (s < 0 ∨ 1 < s) →
        SetPower b n s = (GoResult.error ApiError.powerStateRange, [])) := by
  intro b n s
  constructor
  · intro h
    refine ⟨?_, ?_, ?_, ?_⟩ <;> simp only [USBBoot, ClearUSBBoot, NodetoMSD, SetPower] <;>
      rw [if_pos h]
  · intro h0 h3 hs
    have hn : ¬(n < 0 ∨ 3 < n) := by omega
    simp only [SetPower]
    rw [if_neg hn, if_pos hs]

/-- Closed instance of `c4_validation_before_network` at node 5 and at power
state 2, with a client that would answer if it were ever called. -/
theorem c4_validation_before_network_witness :
    USBBoot { auth := BmcApiAuth.zero, BaseURL := "http://mock", Client := (fun _ => DoResult.fail), AuthType := "basic" } 5 = (GoResult.error ApiError.nodeRange, []) ∧
    SetPower { auth := BmcApiAuth.zero, BaseURL := "http://mock", Client := (fun _ => DoResult.fail), AuthType := "basic" } 1 2 = (GoResult.error ApiError.powerStateRange, []) :=
  ⟨((c4_validation_before_network _ 5 0).1 (by decide)).1,
   (c4_validation_before_network _ 1 2).2 (by decide) (by decide) (by decide)⟩

/-- C5.  For every auth-type string other than `"basic"` and `"bearer"`,
`NewBMCAPI` fails immediately with the invalid-auth-type error and issues no
request, whatever the other arguments. -/
theorem c5_invalid_auth_type :
    ∀ (baseURL username password : String) (client : Request → DoResult) (t : String),
      t ≠ "basic" → t ≠ "bearer" →
      NewBMCAPI baseURL t username password client =
        (GoResult.error (ApiError.invalidAuthType t), []) := by
  intro baseURL username password client t h1 h2
  simp only [NewBMCAPI]
  rw [if_pos ⟨h1, h2⟩]

/-- Closed instance of `c5_invalid_auth_type` at the auth type `"digest"`. -/
theorem c5_invalid_auth_type_witness :
    NewBMCAPI "https://turingpi.local" "digest" "u" "p" (fun _ => DoResult.fail) =
      (GoResult.error (ApiError.invalidAuthType "digest"), []) :=
  c5_invalid_auth_type _ _ _ _ _ (by decide) (by decide)

/-- C6.  In bearer mode, when the client answers the handshake request with
status 200 and a well-formed body that decodes into a credentials record
whose token (`id`) field is empty, `NewBMCAPI` returns the missing-token
authentication error and no client value. -/
theorem c6_bearer_empty_token :
    ∀ (baseURL username password : String) (client : Request → DoResult) (v : JValue) (a : BmcApiAuth),
      client (mkBearerAuthReq (resolveURL baseURL) username password) =
        DoResult.resp { status := 200, respBody := Body.wellFormed v } →
      decodeAuth v = some a → a.accessToken = "" →
      NewBMCAPI baseURL "bearer" username password client =
        (GoResult.error ApiError.authMissingToken,
          [mkBearerAuthReq (resolveURL baseURL) username password]) := by
  intro baseURL username password client v a hcl hdec htok
  simp only [NewBMCAPI]
  rw [if_neg (by simp), if_pos (by trivial)]
  simp only [hcl]
  rw [if_neg (by simp)]
  simp only [hdec]
  rw [if_pos htok]

/-- Closed instance of `c6_bearer_empty_token`: a mock client returns 200
with the body bytes of the text with an empty `id` field. -/
theorem c6_bearer_empty_token_witness :
    NewBMCAPI "http://m" "bearer" "u" "p"
        (fun _ => DoResult.resp
          { status := 200, respBody := Body.wellFormed (JValue.jobj [("id", JValue.jstr "")]) }) =
      (GoResult.error ApiError.authMissingToken, [mkBearerAuthReq (resolveURL "http://m") "u" "p"]) :=
  c6_bearer_empty_token "http://m" "u" "p" _ (JValue.jobj [("id", JValue.jstr "")])
    BmcApiAuth.zero rfl (by decide) rfl

/-- Every scalar operation that reaches the shared call helper issues
exactly the one request the helper builds. -/
theorem scalarOp_trace (b : BMCAPI) (ctx ep : String) :
    (scalarOp b ctx ep).2 = [mkBmcRequest b ep] := by
  simp only [scalarOp, bmcAPICall]
  cases b.Client (mkBmcRequest b ep) with
  | fail => rfl
  | resp r =>
    by_cases h : r.status ≠ 200
    · simp only [if_pos h]
    · simp only [if_neg h]

/-- C7.  For a node in `[0,3]` and a power state in `{0,1}`, `SetPower`
issues exactly one request, whose URL is the base URL followed by
`/api/bmc?opt=power&type=set&node` concatenated directly with the node
number, then `=`, then the power state (the documented wire quirk), and the
response body of a 200 answer is handed to the scalar parser
`resultAPIParse`. -/
theorem c7_setpower_endpoint :
    ∀ (b : BMCAPI) (n s : Int), 0 ≤ n → n ≤ 3 → 0 ≤ s → s ≤ 1 →
      (SetPower b n s).2 = [mkBmcRequest b (setPowerEndpoint n s)] ∧
      (mkBmcRequest b (setPowerEndpoint n s)).url =
        b.BaseURL ++ ("/api/bmc?opt=power&type=set&node" ++ toString n ++ "=" ++ toString s) ∧
      (∀ body : Body,
        b.Client (mkBmcRequest b (setPowerEndpoint n s)) =
          DoResult.resp { status := 200, respBody := body } →
        (SetPower b n s).1 = resultAPIParse body) := by
  intro b n s h0 h3 hs0 hs1
  have hn : ¬(n < 0 ∨ 3 < n) := by omega
  have hp : ¬(s < 0 ∨ 1 < s) := by omega
  have hsp : SetPower b n s = scalarOp b "error during Set Power call" (setPowerEndpoint n s) := by
    simp only [SetPower, setPowerEndpoint]
    rw [if_neg hn, if_neg hp]
  refine ⟨by rw [hsp]; exact scalarOp_trace b _ _, rfl, ?_⟩
  intro body hcl
  rw [hsp]
  simp only [scalarOp, bmcAPICall, hcl]
  rw [if_neg (by simp)]

/-- Closed instance of `c7_setpower_endpoint` at node 1, power state 0,
against a client that returns 200 with a concrete scalar envelope. -/
theorem c7_setpower_endpoint_witness :
    (SetPower mockBMC 1 0).2 = [mkBmcRequest mockBMC (setPowerEndpoint 1 0)] ∧
    (SetPower mockBMC 1 0).1 = resultAPIParse (scalarEnv "ok") :=
  ⟨(c7_setpower_endpoint mockBMC 1 0 (by decide) (by decide) (by decide) (by decide)).1,
   (c7_setpower_endpoint mockBMC 1 0 (by decide) (by decide) (by decide) (by decide)).2.2
     (scalarEnv "ok") rfl⟩

/-- Whenever `NewBMCAPI` returns a client value, that client's `BaseURL`
field is the resolved base URL. -/
theorem newBMCAPI_ok_baseURL :
    ∀ (baseURL authType username password : String) (client : Request → DoResult)
      (api : BMCAPI) (tr : List Request),
      NewBMCAPI baseURL authType username password client = (GoResult.ok api, tr) →
      api.BaseURL = resolveURL baseURL := by
  intro baseURL authType username password client api tr h
  simp only [NewBMCAPI] at h
  repeat' split at h
  all_goals have hf := congrArg Prod.fst h
  all_goals first
    | exact GoResult.noConfusion hf
    | (injection hf with hf; rw [← hf])

/-- C8.  With an empty base URL, `NewBMCAPI` behaves exactly as with the
documented default `https://turingpi.local` - the substituted URL is used
for the handshake request and every branch of the construction - and a
successfully returned client records the default in its `BaseURL` field
(hence uses it for all subsequent requests, which are built on that field);
with any non-empty base URL, a returned client records the supplied value
unchanged. -/
theorem c8_default_base_url :
    ∀ (authType username password : String) (client : Request → DoResult),
      NewBMCAPI "" authType username password client =
        NewBMCAPI tpiDefaultURL authType username password client ∧
      (∀ api tr, NewBMCAPI "" authType username password client = (GoResult.ok api, tr) →
        api.BaseURL = tpiDefaultURL) ∧
      (∀ baseURL, baseURL ≠ "" →
        ∀ api tr, NewBMCAPI baseURL authType username password client = (GoResult.ok api, tr) →
          api.BaseURL = baseURL) := by
  intro authType username password client
  have hres : resolveURL "" = resolveURL tpiDefaultURL := by decide
  refine ⟨?_, ?_, ?_⟩
  · simp only [NewBMCAPI]
    rw [hres]
  · intro api tr h
    rw [newBMCAPI_ok_baseURL _ _ _ _ _ _ _ h]
    rfl
  · intro baseURL hne api tr h
    rw [newBMCAPI_ok_baseURL _ _ _ _ _ _ _ h]
    exact if_neg hne

/-- Closed instance of `c8_default_base_url`: a successful basic-mode
construction from the empty base URL yields `https://turingpi.local`, and
from `"http://m"` yields `"http://m"`. -/
theorem c8_default_base_url_witness :
    ({ auth := { BmcApiAuth.zero with username := "u", password := "p" },
        BaseURL := tpiDefaultURL, Client := mockPlainClient,
        AuthType := "basic" } : BMCAPI).BaseURL = tpiDefaultURL ∧
    ({ auth := { BmcApiAuth.zero with username := "u", password := "p" },
        BaseURL := "http://m", Client := mockPlainClient,
        AuthType := "basic" } : BMCAPI).BaseURL = "http://m" :=
  ⟨(c8_default_base_url "basic" "u" "p" mockPlainClient).2.1
      { auth := { BmcApiAuth.zero with username := "u", password := "p" },
        BaseURL := tpiDefaultURL, Client := mockPlainClient, AuthType := "basic" }
      [mkBasicAuthReq tpiDefaultURL "u" "p"] rfl,
   (c8_default_base_url "basic" "u" "p" mockPlainClient).2.2 "http://m" (by decide)
      { auth := { BmcApiAuth.zero with username := "u", password := "p" },
        BaseURL := "http://m", Client := mockPlainClient, AuthType := "basic" }
      [mkBasicAuthReq "http://m" "u" "p"] rfl⟩

/-- Lifting a pointwise decoder implication with a relation through the
elementwise decode of a slice. -/
theorem decElems_rel {α β : Type} (A : JValue → Option α) (B : JValue → Option β)
    (R : α → β → Prop)
    (hAB : ∀ x a, A x = some a → ∃ b, B x = some b ∧ R a b) :
    ∀ xs as, decElems A xs = some as →
      ∃ bs, decElems B xs = some bs ∧ List.Forall₂ R as bs := by
  intro xs
  induction xs with
  | nil =>
    intro as h
    simp only [decElems, Option.some.injEq] at h
    subst h
    exact ⟨[], rfl, List.Forall₂.nil⟩
  | cons x xs ih =>
    intro as h
    simp only [decElems] at h
    cases hA : A x with
    | none => rw [hA] at h; simp at h
    | some a =>
      rw [hA] at h
      cases hAs : decElems A xs with
      | none => rw [hAs] at h; simp at h
      | some as1 =>
        rw [hAs] at h
        simp only [Option.some.injEq] at h
        subst h
        obtain ⟨b, hB, hR⟩ := hAB x a hA
        obtain ⟨bs, hBs, hF⟩ := ih as1 hAs
        refine ⟨b :: bs, ?_, List.Forall₂.cons hR hF⟩
        simp only [decElems, hB, hBs]

/-- If an object decodes as a `map[string]string`, the same fields also
decode into a `bmcOther` record from any starting record: every stored value
is a string or `null`, which the record decoder accepts whether the key
matches a tag or not. -/
theorem foldMap_other_some :
    ∀ (fs : List (String × JValue)) (m : List (String × String)) (r : BmcOther)
      (m' : List (String × String)),
      foldMapFields fs m = some m' → ∃ r', foldOtherFields fs r = some r' := by
  intro fs
  induction fs with
  | nil => intro m r m' _; exact ⟨r, rfl⟩
  | cons kv rest ih =>
    obtain ⟨k, v⟩ := kv
    intro m r m' h
    cases v with
    | jstr s =>
      simp only [foldMapFields] at h
      simp only [foldOtherFields]
      cases hft : otherTags.find? (fun t => eqFold k t) with
      | some t => exact ih (mapSet m k s) (setOtherField r t s) m' h
      | none => exact ih (mapSet m k s) r m' h
    | jnull =>
      simp only [foldMapFields] at h
      simp only [foldOtherFields]
      cases hft : otherTags.find? (fun t => eqFold k t) with
      | some t => exact ih (mapSet m k "") r m' h
      | none => exact ih (mapSet m k "") r m' h
    | jbool b => exact absurd h (by simp [foldMapFields])
    | jnum n => exact absurd h (by simp [foldMapFields])
    | jarr xs => exact absurd h (by simp [foldMapFields])
    | jobj gs => exact absurd h (by simp [foldMapFields])

/-- A JSON value that decodes as a string map also decodes as a `bmcOther`
record. -/
theorem strMap_to_other : ∀ x m, decodeStrMap x = some m → ∃ r, decodeOtherV x = some r := by
  intro x m h
  cases x with
  | jnull => exact ⟨BmcOther.zero, rfl⟩
  | jobj fs =>
    simp only [decodeStrMap] at h
    obtain ⟨r', hr'⟩ := foldMap_other_some fs [] BmcOther.zero m h
    exact ⟨r', hr'⟩
  | jbool b => simp [decodeStrMap] at h
  | jnum n => simp [decodeStrMap] at h
  | jstr s => simp [decodeStrMap] at h
  | jarr xs => simp [decodeStrMap] at h

/-- Elementwise lifting of `strMap_to_other` over a `result` array, keeping
the source value of each element. -/
theorem decElems_strMap_other :
    ∀ xs ms, decElems decodeStrMap xs = some ms →
      ∃ os, decElems decodeOtherV xs = some os ∧ List.Forall₂ mapRecPair ms os :=
  decElems_rel decodeStrMap decodeOtherV mapRecPair
    (fun x a h => by
      obtain ⟨b, hb⟩ := strMap_to_other x a h
      exact ⟨b, hb, x, h, hb⟩)

/-- Lifting through the `struct{ Result ... }` field fold: related
accumulators stay related, and a `result` array is re-decoded through
`decElems_strMap_other`. -/
theorem foldObjElem_lift :
    ∀ (fs : List (String × JValue)) acc acc', List.Forall₂ mapRecPair acc acc' →
      ∀ ms, foldObjElem fs acc = some ms →
      ∃ os, foldOtherElem fs acc' = some os ∧ List.Forall₂ mapRecPair ms os := by
  intro fs
  induction fs with
  | nil =>
    intro acc acc' hrel ms h
    simp only [foldObjElem, Option.some.injEq] at h
    subst h
    exact ⟨acc', rfl, hrel⟩
  | cons kv rest ih =>
    obtain ⟨k, v⟩ := kv
    intro acc acc' hrel ms h
    by_cases hk : eqFold k "result" = true
    · cases v with
      | jarr xs =>
        simp only [foldObjElem, if_pos hk] at h
        simp only [foldOtherElem, if_pos hk]
        cases hds : decElems decodeStrMap xs with
        | none => rw [hds] at h; simp at h
        | some ms1 =>
          rw [hds] at h
          obtain ⟨os1, hos1, hrel1⟩ := decElems_strMap_other xs ms1 hds
          rw [hos1]
          exact ih ms1 os1 hrel1 ms h
      | jnull =>
        simp only [foldObjElem, if_pos hk] at h
        simp only [foldOtherElem, if_pos hk]
        exact ih [] [] List.Forall₂.nil ms h
      | jbool b => simp [foldObjElem, if_pos hk] at h
      | jnum n => simp [foldObjElem, if_pos hk] at h
      | jstr s => simp [foldObjElem, if_pos hk] at h
      | jobj gs => simp [foldObjElem, if_pos hk] at h
    · simp only [foldObjElem, if_neg hk] at h
      simp only [foldOtherElem, if_neg hk]
      exact ih acc acc' hrel ms h

/-- One slice element of the object envelope: a decoded `Result` list of
maps corresponds to a decoded `Result` list of records. -/
theorem objElem_lift :
    ∀ x ms, decodeObjElem x = some ms →
      ∃ os, decodeOtherElem x = some os ∧ List.Forall₂ mapRecPair ms os := by
  intro x ms h
  cases x with
  | jnull =>
    simp only [decodeObjElem, Option.some.injEq] at h
    subst h
    exact ⟨[], rfl, List.Forall₂.nil⟩
  | jobj fs => exact foldObjElem_lift fs [] [] List.Forall₂.nil ms h
  | jbool b => simp [decodeObjElem] at h
  | jnum n => simp [decodeObjElem] at h
  | jstr s => simp [decodeObjElem] at h
  | jarr xs => simp [decodeObjElem] at h

/-- Lifting through the top-level `response` field fold. -/
theorem foldObjectResp_lift :
    ∀ (fs : List (String × JValue)) acc acc', List.Forall₂ resultListPair acc acc' →
      ∀ rs, foldObjectResp fs acc = some rs →
      ∃ rs', foldOtherResp fs acc' = some rs' ∧ List.Forall₂ resultListPair rs rs' := by
  intro fs
  induction fs with
  | nil =>
    intro acc acc' hrel rs h
    simp only [foldObjectResp, Option.some.injEq] at h
    subst h
    exact ⟨acc', rfl, hrel⟩
  | cons kv rest ih =>
    obtain ⟨k, v⟩ := kv
    intro acc acc' hrel rs h
    by_cases hk : eqFold k "response" = true
    · cases v with
      | jarr xs =>
        simp only [foldObjectResp, if_pos hk] at h
        simp only [foldOtherResp, if_pos hk]
        cases hds : decElems decodeObjElem xs with
        | none => rw [hds] at h; simp at h
        | some rs1 =>
          rw [hds] at h
          obtain ⟨os1, hos1, hrel1⟩ :=
            decElems_rel decodeObjElem decodeOtherElem resultListPair
              (fun x a hxa => by
                obtain ⟨b, hb, hr⟩ := objElem_lift x a hxa
                exact ⟨b, hb, hr⟩) xs rs1 hds
          rw [hos1]
          exact ih rs1 os1 hrel1 rs h
      | jnull =>
        simp only [foldObjectResp, if_pos hk] at h
        simp only [foldOtherResp, if_pos hk]
        exact ih [] [] List.Forall₂.nil rs h
      | jbool b => simp [foldObjectResp, if_pos hk] at h
      | jnum n => simp [foldObjectResp, if_pos hk] at h
      | jstr s => simp [foldObjectResp, if_pos hk] at h
      | jobj gs => simp [foldObjectResp, if_pos hk] at h
    · simp only [foldObjectResp, if_neg hk] at h
      simp only [foldOtherResp, if_neg hk]
      exact ih acc acc' hrel rs h

/-- A document that decodes into `bmcObjectAPIResponse` also decodes into
the inline `bmcOtherResponse`, with elementwise-related `Result` lists. -/
theorem objectResp_lift :
    ∀ v rs, decodeObjectResp v = some rs →
      ∃ rs', decodeOtherResp v = some rs' ∧ List.Forall₂ resultListPair rs rs' := by
  intro v rs h
  cases v with
  | jnull =>
    simp only [decodeObjectResp, Option.some.injEq] at h
    subst h
    exact ⟨[], rfl, List.Forall₂.nil⟩
  | jobj fs => exact foldObjectResp_lift fs [] [] List.Forall₂.nil rs h
  | jbool b => simp [decodeObjectResp] at h
  | jnum n => simp [decodeObjectResp] at h
  | jstr s => simp [decodeObjectResp] at h
  | jarr xs => simp [decodeObjectResp] at h

/-- The field-name fold is reflexive. -/
theorem eqFold_refl (s : String) : eqFold s s = true := by
  simp [eqFold]

/-- Go map lookup on a cons cell. -/
theorem lookupD_cons (k' v' : String) (t : List (String × String)) (k : String) :
    lookupD ((k', v') :: t) k = if k' = k then v' else lookupD t k := by
  by_cases h : k' = k
  · subst h
    simp [lookupD, List.find?]
  · have hb : (k' == k) = false := by simp [h]
    simp [lookupD, List.find?, hb, h]

/-- Go map lookup after an insert: the inserted value at the inserted key,
the old value elsewhere. -/
theorem lookupD_mapSet (m : List (String × String)) (k v k' : String) :
    lookupD (mapSet m k v) k' = if k = k' then v else lookupD m k' := by
  induction m with
  | nil =>
    simp [mapSet, lookupD_cons]
  | cons e t ih =>
    obtain ⟨a, b⟩ := e
    by_cases hak : a = k
    · subst hak
      simp only [mapSet, if_pos rfl, lookupD_cons]
      by_cases h : a = k' <;> simp [h, lookupD_cons]
    · simp only [mapSet, if_neg hak, lookupD_cons, ih]
      by_cases h1 : a = k' <;> by_cases h2 : k = k'
      · exact absurd (h1.trans h2.symm) hak
      · simp [h1, h2]
      · simp [h1, h2]
      · simp [h1, h2]

/-- Reading a `bmcOther` field after writing one: the written string at the
written tag, the old field elsewhere (both tags being among the seven). -/
theorem getOther_setOther (r : BmcOther) (s t0 t : String)
    (h0 : t0 ∈ otherTags) (h1 : t ∈ otherTags) :
    getOtherField (setOtherField r t0 s) t = if t0 = t then s else getOtherField r t := by
  fin_cases h0 <;> fin_cases h1 <;> simp [setOtherField, getOtherField]

/-- Core agreement induction: walking one object's fields simultaneously as
a Go map and as a `bmcOther` record keeps the seven tagged lookups equal,
provided the keys are pairwise distinct, every key that case-insensitively
matches a tag is exactly that tag, the two accumulators already agree on the
tags, and no upcoming key is a tag that was already written. -/
theorem foldMapOther_agree :
    ∀ (fs : List (String × JValue)) (m : List (String × String)) (r : BmcOther),
      (fs.map Prod.fst).Nodup →
      (∀ k ∈ fs.map Prod.fst, ∀ t ∈ otherTags, eqFold k t = true → k = t) →
      (∀ t ∈ otherTags, lookupD m t = getOtherField r t) →
      (∀ t ∈ otherTags, t ∈ fs.map Prod.fst → lookupD m t = "") →
      ∀ m' r', foldMapFields fs m = some m' → foldOtherFields fs r = some r' →
        ∀ t ∈ otherTags, lookupD m' t = getOtherField r' t := by
  intro fs
  induction fs with
  | nil =>
    intro m r _ _ hinv _ m' r' hm hr
    simp only [foldMapFields, Option.some.injEq] at hm
    simp only [foldOtherFields, Option.some.injEq] at hr
    subst hm; subst hr
    exact hinv
  | cons kv rest ih =>
    obtain ⟨k, v⟩ := kv
    intro m r hnd hexact hinv hfresh m' r' hm hr
    have hndtail : (rest.map Prod.fst).Nodup := (List.nodup_cons.mp hnd).2
    have hknotin : k ∉ rest.map Prod.fst := (List.nodup_cons.mp hnd).1
    have hexacttail : ∀ k' ∈ rest.map Prod.fst, ∀ t ∈ otherTags, eqFold k' t = true → k' = t :=
      fun k' hk' => hexact k' (List.mem_cons_of_mem _ hk')
    cases hft : otherTags.find? (fun t => eqFold k t) with
    | some t0 =>
      have hkt : eqFold k t0 = true := List.find?_some hft
      have ht0 : t0 ∈ otherTags := List.mem_of_find?_eq_some hft
      have hk0 : k = t0 := hexact k (List.mem_cons_self _ _) t0 ht0 hkt
      subst hk0
      rw [foldOtherFields, hft] at hr
      cases v with
      | jstr s =>
        simp only [foldMapFields] at hm
        simp only [] at hr
        refine ih (mapSet m k s) (setOtherField r k s) hndtail hexacttail ?_ ?_ m' r' hm hr
        · intro t ht
          rw [lookupD_mapSet, getOther_setOther r s k t ht0 ht]
          by_cases hkt' : k = t
          · simp [hkt']
          · simp only [if_neg hkt']
            exact hinv t ht
        · intro t ht htrest
          rw [lookupD_mapSet]
          have hkt' : k ≠ t := fun he => hknotin (he ▸ htrest)
          rw [if_neg hkt']
          exact hfresh t ht (List.mem_cons_of_mem _ htrest)
      | jnull =>
        simp only [foldMapFields] at hm
        simp only [] at hr
        refine ih (mapSet m k "") r hndtail hexacttail ?_ ?_ m' r' hm hr
        · intro t ht
          rw [lookupD_mapSet]
          by_cases hkt' : k = t
          · subst hkt'
            have h1 : lookupD m k = "" := hfresh k ht0 (List.mem_cons_self _ _)
            have h2 : lookupD m k = getOtherField r k := hinv k ht0
            simp [← h2, h1]
          · rw [if_neg hkt']
            exact hinv t ht
        · intro t ht htrest
          rw [lookupD_mapSet]
          have hkt' : k ≠ t := fun he => hknotin (he ▸ htrest)
          rw [if_neg hkt']
          exact hfresh t ht (List.mem_cons_of_mem _ htrest)
      | jbool b => simp [foldMapFields] at hm
      | jnum n => simp [foldMapFields] at hm
      | jarr xs => simp [foldMapFields] at hm
      | jobj gs => simp [foldMapFields] at hm
    | none =>
      have hknot : ∀ t ∈ otherTags, ¬(eqFold k t = true) := by
        intro t ht
        exact List.find?_eq_none.mp hft t ht
      have hkne : ∀ t ∈ otherTags, k ≠ t :=
        fun t ht he => hknot t ht (he ▸ eqFold_refl t)
      rw [foldOtherFields, hft] at hr
      cases v with
      | jstr s =>
        simp only [foldMapFields] at hm
        refine ih (mapSet m k s) r hndtail hexacttail ?_ ?_ m' r' hm hr
        · intro t ht
          rw [lookupD_mapSet, if_neg (hkne t ht)]
          exact hinv t ht
        · intro t ht htrest
          rw [lookupD_mapSet, if_neg (hkne t ht)]
          exact hfresh t ht (List.mem_cons_of_mem _ htrest)
      | jnull =>
        simp only [foldMapFields] at hm
        refine ih (mapSet m k "") r hndtail hexacttail ?_ ?_ m' r' hm hr
        · intro t ht
          rw [lookupD_mapSet, if_neg (hkne t ht)]
          exact hinv t ht
        · intro t ht htrest
          rw [lookupD_mapSet, if_neg (hkne t ht)]
          exact hfresh t ht (List.mem_cons_of_mem _ htrest)
      | jbool b => simp [foldMapFields] at hm
      | jnum n => simp [foldMapFields] at hm
      | jarr xs => simp [foldMapFields] at hm
      | jobj gs => simp [foldMapFields] at hm

/-- C9 counterexample.  On the body
`{"response":[{"result":[{"api":"1.1","x":5}]}]}` the helper-based `Other`
pipeline fails (the map decode rejects the number under `"x"`) while the
inline pipeline succeeds (the struct decode skips the unknown key), so the
claimed equivalence - both fail or both succeed with equal records - is
false at this input. -/
theorem c9_counterexample :
    otherParseHelper c9Body =
      PResult.error (ApiError.wrapped "error parsing response" ApiError.jsonParse) ∧
    otherParseInline c9Body = PResult.ok { BmcOther.zero with api := "1.1" } ∧
    ¬((∃ e1 e2, otherParseHelper c9Body = PResult.error e1 ∧
          otherParseInline c9Body = PResult.error e2) ∨
      (∃ r, otherParseHelper c9Body = PResult.ok r ∧ otherParseInline c9Body = PResult.ok r)) := by
  refine ⟨by decide, by decide, ?_⟩
  intro h
  rcases h with ⟨e1, e2, h1, h2⟩ | ⟨r, h1, h2⟩
  · have hok : otherParseInline c9Body = PResult.ok { BmcOther.zero with api := "1.1" } := by
      decide
    rw [hok] at h2
    exact PResult.noConfusion h2
  · have herr : otherParseHelper c9Body =
        PResult.error (ApiError.wrapped "error parsing response" ApiError.jsonParse) := by
      decide
    rw [herr] at h1
    exact PResult.noConfusion h1

/-- C9 amended.  The two `Other` implementations are not equivalent on all
bodies; what holds is a refinement: (1) whenever the helper-based pipeline
succeeds, the inline pipeline succeeds too, and the two results are the
map-copy and the record-decode of the same first result object; (2) when
that object has pairwise-distinct keys, none of which matches one of the
seven field tags case-insensitively without being exactly that tag, the two
results have equal fields. -/
theorem c9_amended_other_refinement :
    (∀ (body : Body) (r1 : BmcOther), otherParseHelper body = PResult.ok r1 →
      ∃ x m, decodeStrMap x = some m ∧ r1 = recFromMap m ∧
        ∃ r2, decodeOtherV x = some r2 ∧ otherParseInline body = PResult.ok r2) ∧
    (∀ (x : JValue) (m : List (String × String)) (r2 : BmcOther),
      decodeStrMap x = some m → decodeOtherV x = some r2 → cleanFirstObj x →
      recFromMap m = r2) := by
  constructor
  · intro body r1 h
    cases body with
    | malformed => exact absurd h (by simp [otherParseHelper, objectAPIParse])
    | wellFormed v =>
      simp only [otherParseHelper, objectAPIParse] at h
      cases hd : decodeObjectResp v with
      | none => rw [hd] at h; exact absurd h (by simp)
      | some rs =>
        rw [hd] at h
        match rs, h with
        | [], h => exact absurd h (by simp)
        | [] :: rest, h => exact absurd h (by simp)
        | (m0 :: ms) :: rest, h =>
          simp only [PResult.ok.injEq] at h
          obtain ⟨rs', hrs', hF⟩ := objectResp_lift v ((m0 :: ms) :: rest) hd
          cases hF with
          | cons hhead htail =>
            rename_i e0' rest'
            cases hhead with
            | cons hpair htail2 =>
              rename_i o0 os'
              obtain ⟨x, hx1, hx2⟩ := hpair
              refine ⟨x, m0, hx1, h.symm, o0, hx2, ?_⟩
              simp only [otherParseInline, hrs']
  · intro x m r2 hm hr hclean
    cases x with
    | jnull =>
      simp only [decodeStrMap, Option.some.injEq] at hm
      simp only [decodeOtherV, Option.some.injEq] at hr
      subst hm; subst hr
      rfl
    | jobj fs =>
      simp only [decodeStrMap] at hm
      simp only [decodeOtherV] at hr
      obtain ⟨hnd, hexact⟩ := hclean
      have hagree := foldMapOther_agree fs [] BmcOther.zero hnd hexact
        (by intro t ht; fin_cases ht <;> rfl)
        (by intro t ht _; rfl) m r2 hm hr
      have e1 : lookupD m "api" = r2.api := hagree "api" (by decide)
      have e2 : lookupD m "build_version" = r2.build_version := hagree "build_version" (by decide)
      have e3 : lookupD m "buildroot" = r2.buildroot := hagree "buildroot" (by decide)
      have e4 : lookupD m "buildtime" = r2.buildtime := hagree "buildtime" (by decide)
      have e5 : lookupD m "ip" = r2.ip := hagree "ip" (by decide)
      have e6 : lookupD m "mac" = r2.mac := hagree "mac" (by decide)
      have e7 : lookupD m "version" = r2.version := hagree "version" (by decide)
      simp only [recFromMap, e1, e2, e3, e4, e5, e6, e7]
    | jbool b => simp [decodeStrMap] at hm
    | jnum n => simp [decodeStrMap] at hm
    | jstr s => simp [decodeStrMap] at hm
    | jarr xs => simp [decodeStrMap] at hm

/-- Closed instance of `c9_amended_other_refinement` on a concrete clean
body: success of the helper pipeline transfers to the inline pipeline, and
the copied record agrees with the decoded record. -/
theorem c9_amended_other_refinement_witness :
    (∃ x m, decodeStrMap x = some m ∧
        recFromMap [("api", "1.1"), ("version", "2.3.4")] = recFromMap m ∧
        ∃ r2, decodeOtherV x = some r2 ∧
          otherParseInline (Body.wellFormed (JValue.jobj
            [("response", JValue.jarr [JValue.jobj
              [("result", JValue.jarr [JValue.jobj
                [("api", JValue.jstr "1.1"), ("version", JValue.jstr "2.3.4")]])]])])) =
            PResult.ok r2) ∧
    recFromMap [("api", "1.1"), ("version", "2.3.4")] =
      { BmcOther.zero with api := "1.1", version := "2.3.4" } :=
  ⟨c9_amended_other_refinement.1 (Body.wellFormed (JValue.jobj
      [("response", JValue.jarr [JValue.jobj
        [("result", JValue.jarr [JValue.jobj
          [("api", JValue.jstr "1.1"), ("version", JValue.jstr "2.3.4")]])]])]))
      (recFromMap [("api", "1.1"), ("version", "2.3.4")]) (by decide),
   c9_amended_other_refinement.2
      (JValue.jobj [("api", JValue.jstr "1.1"), ("version", JValue.jstr "2.3.4")])
      [("api", "1.1"), ("version", "2.3.4")]
      { BmcOther.zero with api := "1.1", version := "2.3.4" }
      (by decide) (by decide) ⟨by decide, by decide⟩⟩

/-- Consuming a literal prefix that is present succeeds with the rest. -/
theorem expectLit_append : ∀ (l rest : List Char), expectLit l (l ++ rest) = some rest := by
  intro l
  induction l with
  | nil => intro rest; rfl
  | cons c ls ih =>
    intro rest
    simp only [List.cons_append, expectLit, if_pos rfl]
    exact ih rest

/-- A successful literal consumption splits the input exactly. -/
theorem expectLit_sound : ∀ (l input r : List Char), expectLit l input = some r → input = l ++ r := by
  intro l
  induction l with
  | nil =>
    intro input r h
    simp only [expectLit, Option.some.injEq] at h
    subst h
    rfl
  | cons c ls ih =>
    intro input r h
    cases input with
    | nil => simp [expectLit] at h
    | cons c' cs =>
      simp only [expectLit] at h
      by_cases hc : c' = c
      · rw [if_pos hc] at h
        subst hc
        rw [List.cons_append, ih cs r h]
      · rw [if_neg hc] at h
        exact absurd h (by simp)

/-- Scanning a string literal whose content needs no escaping: the scanner
consumes exactly the content and its closing quote. -/
theorem scan_plain : ∀ (cs rest : List Char), cs.all goodJChar = true →
    scanJString (cs ++ '"' :: rest) = some (cs, rest) := by
  intro cs
  induction cs with
  | nil =>
    intro rest _
    rw [List.nil_append, scanJString.eq_def]
    rfl
  | cons c cs ih =>
    intro rest hall
    simp only [List.all_cons, Bool.and_eq_true] at hall
    obtain ⟨hc, hcs⟩ := hall
    simp only [goodJChar, Bool.and_eq_true, Bool.not_eq_true', decide_eq_false_iff_not] at hc
    obtain ⟨⟨hq, hb⟩, hctl⟩ := hc
    rw [List.cons_append, scanJString.eq_def]
    simp only []
    rw [if_neg hq, if_neg hb, if_neg hctl]
    rw [ih rest hcs]

/-- Bookkeeping for a successful string-literal scan: the scanner consumes
at least one character more than it produces (the closing quote), and it
consumes exactly one more only when the content needed no escapes - in which
case the content is plain and the input is literally the content followed by
a quote. -/
theorem scan_consume :
    ∀ (ys content tail : List Char), scanJString ys = some (content, tail) →
      ∃ k, ys.length = k + tail.length ∧ content.length + 1 ≤ k ∧
        (k = content.length + 1 → content.all goodJChar = true ∧ ys = content ++ '"' :: tail) := by
  suffices H : ∀ (n : Nat) (ys content tail : List Char), ys.length ≤ n →
      scanJString ys = some (content, tail) →
      ∃ k, ys.length = k + tail.length ∧ content.length + 1 ≤ k ∧
        (k = content.length + 1 → content.all goodJChar = true ∧ ys = content ++ '"' :: tail) by
    exact fun ys content tail h => H ys.length ys content tail (le_refl _) h
  intro n
  induction n using Nat.strong_induction_on with
  | _ n ih =>
    intro ys content tail hlen h
    cases ys with
    | nil => rw [scanJString.eq_def] at h; exact absurd h (by simp)
    | cons c rest =>
      rw [scanJString.eq_def] at h
      simp only [] at h
      by_cases hq : c = '"'
      · rw [if_pos hq] at h
        simp only [Option.some.injEq, Prod.mk.injEq] at h
        obtain ⟨hc, ht⟩ := h
        subst hc
        rw [← ht]
        refine ⟨1, by simp only [List.length_cons]; omega, by simp, ?_⟩
        intro _
        exact ⟨rfl, by simp [hq]⟩
      · rw [if_neg hq] at h
        by_cases hb : c = '\\'
        · rw [if_pos hb] at h
          cases rest with
          | nil => exact absurd h (by simp)
          | cons e rest1 =>
            simp only [] at h
            by_cases hu : e = 'u'
            · rw [if_pos hu] at h
              match rest1, hlen, h with
              | [], hlen, h => exact absurd h (by simp)
              | [a], hlen, h => exact absurd h (by simp)
              | [a, b2], hlen, h => exact absurd h (by simp)
              | [a, b2, c2], hlen, h => exact absurd h (by simp)
              | a :: b2 :: c2 :: d2 :: rest2, hlen, h =>
                simp only [] at h
                by_cases hhex :
                    (isHexDigit a && isHexDigit b2 && isHexDigit c2 && isHexDigit d2) = true
                · rw [if_pos hhex] at h
                  cases hsc : scanJString rest2 with
                  | none => rw [hsc] at h; exact absurd h (by simp)
                  | some p =>
                    obtain ⟨cs1, t1⟩ := p
                    rw [hsc] at h
                    simp only [Option.some.injEq, Prod.mk.injEq] at h
                    obtain ⟨hc, ht⟩ := h
                    subst hc
                    rw [← ht]
                    obtain ⟨k', h1, h2, _⟩ :=
                      ih rest2.length (by simp only [List.length_cons] at hlen; omega)
                        rest2 cs1 t1 (le_refl _) hsc
                    refine ⟨6 + k', by simp only [List.length_cons]; omega,
                      by simp only [List.length_cons]; omega, ?_⟩
                    intro he
                    exact absurd he (by simp only [List.length_cons]; omega)
                · rw [if_neg hhex] at h
                  exact absurd h (by simp)
            · rw [if_neg hu] at h
              cases hesc : escChar e with
              | none => rw [hesc] at h; exact absurd h (by simp)
              | some d =>
                rw [hesc] at h
                cases hsc : scanJString rest1 with
                | none => rw [hsc] at h; exact absurd h (by simp)
                | some p =>
                  obtain ⟨cs1, t1⟩ := p
                  rw [hsc] at h
                  simp only [Option.some.injEq, Prod.mk.injEq] at h
                  obtain ⟨hc, ht⟩ := h
                  subst hc
                  rw [← ht]
                  obtain ⟨k', h1, h2, _⟩ :=
                    ih rest1.length (by simp only [List.length_cons] at hlen; omega)
                      rest1 cs1 t1 (le_refl _) hsc
                  refine ⟨2 + k', by simp only [List.length_cons]; omega,
                    by simp only [List.length_cons]; omega, ?_⟩
                  intro he
                  exact absurd he (by simp only [List.length_cons]; omega)
        · rw [if_neg hb] at h
          by_cases hctl : c.toNat < 32
          · rw [if_pos hctl] at h
            exact absurd h (by simp)
          · rw [if_neg hctl] at h
            cases hsc : scanJString rest with
            | none => rw [hsc] at h; exact absurd h (by simp)
            | some p =>
              obtain ⟨cs1, t1⟩ := p
              rw [hsc] at h
              simp only [Option.some.injEq, Prod.mk.injEq] at h
              obtain ⟨hc, ht⟩ := h
              subst hc
              rw [← ht]
              obtain ⟨k', h1, h2, h3⟩ :=
                ih rest.length (by simp only [List.length_cons] at hlen; omega)
                  rest cs1 t1 (le_refl _) hsc
              refine ⟨1 + k', by simp only [List.length_cons]; omega,
                by simp only [List.length_cons]; omega, ?_⟩
              intro he
              have hk' : k' = cs1.length + 1 := by
                simp only [List.length_cons] at he; omega
              obtain ⟨hall, hrest⟩ := h3 hk'
              constructor
              · simp only [List.all_cons, hall, Bool.and_true]
                simp [goodJChar, hq, hb, hctl]
              · rw [hrest]
                simp

/-- Character-level decomposition of the handshake body built by
concatenation: skeleton, username bytes, quote, skeleton, password bytes,
quote, closing brace. -/
theorem authBody_data (u p : String) :
    (authBody u p).data =
      preChars ++ (u.data ++ ('"' :: (midChars ++ (p.data ++ ['"', '\x7d'])))) := by
  simp only [authBody, String.data_append]
  simp [preChars, midChars, List.append_assoc]

/-- The handshake body is a well-formed JSON encoding of the credential pair
exactly when both credential strings consist of characters that need no
escaping in a JSON string literal (no quote, no backslash, no control
character). -/
theorem credsParse_authBody (u p : String) :
    credsParse (authBody u p) = some (u, p) ↔ (goodLit u = true ∧ goodLit p = true) := by
  constructor
  · intro h
    simp only [credsParse] at h
    rw [authBody_data, expectLit_append] at h
    simp only [] at h
    cases hs1 : scanJString (u.data ++ ('"' :: (midChars ++ (p.data ++ ['"', '\x7d'])))) with
    | none => rw [hs1] at h; exact absurd h (by simp)
    | some q1 =>
      obtain ⟨ucs, r1⟩ := q1
      rw [hs1] at h
      simp only [] at h
      cases he2 : expectLit midChars r1 with
      | none => rw [he2] at h; exact absurd h (by simp)
      | some r2 =>
        rw [he2] at h
        simp only [] at h
        cases hs2 : scanJString r2 with
        | none => rw [hs2] at h; exact absurd h (by simp)
        | some q2 =>
          obtain ⟨pcs, r3⟩ := q2
          rw [hs2] at h
          simp only [] at h
          by_cases hr3 : r3 = ['\x7d']
          · rw [if_pos hr3] at h
            simp only [Option.some.injEq, Prod.mk.injEq] at h
            obtain ⟨h1, h2⟩ := h
            have hu : ucs = u.data := congrArg String.data h1
            have hp : pcs = p.data := congrArg String.data h2
            subst hu; subst hp; subst hr3
            obtain ⟨k1, H1, H2, H3⟩ := scan_consume _ _ _ hs1
            have hr1 : r1 = midChars ++ r2 := expectLit_sound midChars r1 r2 he2
            obtain ⟨k2, G1, G2, G3⟩ := scan_consume _ _ _ hs2
            have hmid : midChars.length = 13 := rfl
            subst hr1
            simp only [List.length_append, List.length_cons, List.length_nil] at H1 G1
            have hk1 : k1 = u.data.length + 1 := by omega
            have hk2 : k2 = p.data.length + 1 := by omega
            exact ⟨(H3 hk1).1, (G3 hk2).1⟩
          · rw [if_neg hr3] at h
            exact absurd h (by simp)
  · intro hgood
    obtain ⟨hu, hp⟩ := hgood
    simp only [credsParse]
    rw [authBody_data, expectLit_append]
    simp only []
    rw [scan_plain u.data _ hu]
    simp only []
    rw [expectLit_append]
    simp only []
    rw [scan_plain p.data _ hp]
    simp only []
    rw [if_pos trivial]

/-- Every bearer-mode construction issues exactly the one handshake
request, whatever the client answers. -/
theorem newBMCAPI_bearer_trace :
    ∀ (baseURL username password : String) (client : Request → DoResult),
      (NewBMCAPI baseURL "bearer" username password client).2 =
        [mkBearerAuthReq (resolveURL baseURL) username password] := by
  intro baseURL username password client
  simp only [NewBMCAPI]
  rw [if_neg (by simp), if_pos (by trivial)]
  repeat' split
  all_goals rfl

/-- C10 counterexample.  At the username `"u"` and the password `"\n"` -
which contains neither a double quote nor a backslash - the concatenated
body is not well-formed JSON (a raw control character inside a string
literal), so the claim's "valid JSON encoding exactly when neither contains
a double-quote or backslash" fails at this input. -/
theorem c10_counterexample :
    ¬((credsParse (authBody "u" "\n") = some ("u", "\n")) ↔
      (noQuoteBackslash "u" = true ∧ noQuoteBackslash "\n" = true)) := by
  decide

/-- C10 amended.  The bearer handshake request body is built by direct
string concatenation and equals the skeleton text with the username and
password inserted verbatim; the resulting body is a valid JSON encoding of
those credentials exactly when neither string contains a double quote, a
backslash, or a control character below U+0020 (a condition strictly
stronger than the claim's quote/backslash test); in particular some inputs
without quotes or backslashes still produce a body that is not well-formed
JSON. -/
theorem c10_amended_handshake_body :
    (∀ (baseURL username password : String) (client : Request → DoResult),
      (NewBMCAPI baseURL "bearer" username password client).2 =
        [mkBearerAuthReq (resolveURL baseURL) username password] ∧
      (mkBearerAuthReq (resolveURL baseURL) username password).reqBody =
        some ("\x7b\"username\":\"" ++ username ++ "\",\"password\":\"" ++ password ++ "\"\x7d")) ∧
    (∀ u p : String,
      credsParse (authBody u p) = some (u, p) ↔ (goodLit u = true ∧ goodLit p = true)) :=
  ⟨fun baseURL username password client =>
    ⟨newBMCAPI_bearer_trace baseURL username password client, rfl⟩,
   credsParse_authBody⟩

/-- Closed instance of `c10_amended_handshake_body`: clean credentials give
a valid encoding, and the request body of a concrete construction is the
concatenated text. -/
theorem c10_amended_handshake_body_witness :
    credsParse (authBody "alice" "secret1") = some ("alice", "secret1") ∧
    (mkBearerAuthReq (resolveURL "") "alice" "secret1").reqBody =
      some ("\x7b\"username\":\"alice\",\"password\":\"secret1\"\x7d") := by
  constructor
  · exact (c10_amended_handshake_body.2 "alice" "secret1").mpr ⟨by decide, by decide⟩
  · rw [(c10_amended_handshake_body.1 "" "alice" "secret1" mockPlainClient).2]
    rfl
